import Mathlib

/-!
Verification of the numerical resolver subsystem of the QGrain repository.

The development shallowly embeds the Python sources:
* `src/algorithms.py` — the Weibull kernel library: parameter-layout builder
  (`_get_params`), bounds/defaults extraction, the single inequality
  constraint (`_get_constrains`), the generated mixture function
  (`_get_lambda_string` + `exec`, embedded as `mixedWeibull`), and the
  post-processing decoder (`process_params`) with its mean-based sort.
* `src/resolvers/resolver.py` — the single-sample resolver: valid-range
  detection, preprocessing, data validation, `feed_data`, and the
  `ncomp` / `distribution_type` property setters.
* `src/QGrain/udm/_resolver.py` — the joint (UDM) resolver's `try_fit`
  training loop: pretrain phase, main phase, NaN hard stop, early stopping,
  and the history / loss-series bookkeeping.

Python floats are embedded as exact rationals (`ℚ`) where the code only
moves values around, and as reals (`ℝ`) where genuinely real functions
(`exp`, real powers, `Γ`) are evaluated.  A possibly-NaN float is
`Option ℚ` (`none` = NaN).  Python lists are Lean lists; negative-index
slicing is embedded by explicit clamping functions below.
-/

namespace QGrain

/-! ### Kernel library: parameter layout (`src/algorithms.py`) -/

/-- `INFINITESIMAL = 1e-100` from `algorithms.py`, as an exact rational. -/
def INFINITESIMAL : ℚ := 1 / 10 ^ 100

/-- Parameter names generated by `_get_params`.  For `ncomp == 1` the names
are the bare strings `"beta"`/`"eta"` (index `none`); for `ncomp > 1` they
carry the 1-based component number (`"beta3"` is `.beta (some 3)`). -/
inductive PName where
  | beta (index : Option ℕ)
  | eta (index : Option ℕ)
  | f (index : ℕ)
deriving DecidableEq, Repr

/-- One entry of the list built by `_get_params`: the dict
`{"name": …, "default": …, "location": …, "bounds": …}`.  A bound pair
`(lo, hi)` has `hi = none` for Python `None` (unbounded above). -/
structure ParamSpec where
  name : PName
  default : ℚ
  location : ℕ
  bounds : ℚ × Option ℚ
deriving DecidableEq, Repr

/-- The `beta{i+1}` entry appended for component `i` (0-based) when `ncomp > 1`. -/
def betaSpec (i : ℕ) : ParamSpec :=
  ⟨.beta (some (i + 1)), 1, i * 2, (INFINITESIMAL, none)⟩

/-- The `eta{i+1}` entry appended for component `i` (0-based) when `ncomp > 1`. -/
def etaSpec (i : ℕ) : ParamSpec :=
  ⟨.eta (some (i + 1)), 1, i * 2 + 1, (INFINITESIMAL, none)⟩

/-- The `f{i+1}` fraction entry appended for `i` in `range(ncomp-1)`. -/
def fSpec (ncomp i : ℕ) : ParamSpec :=
  ⟨.f (i + 1), 1 / ncomp, ncomp * 2 + i, (0, some 1)⟩

/-- `_get_params(ncomp)` from `algorithms.py`.  For `ncomp ≤ 0` the source
raises `ValueError`; that branch is embedded as `[]` and is unreachable in
every theorem below (they all assume `1 ≤ ncomp`). -/
def getParams (ncomp : ℕ) : List ParamSpec :=
  if ncomp = 1 then
    [⟨.beta none, 1, 0, (INFINITESIMAL, none)⟩,
     ⟨.eta none, 1, 1, (INFINITESIMAL, none)⟩]
  else if 1 < ncomp then
    ((List.range ncomp).flatMap fun i => [betaSpec i, etaSpec i]) ++
      ((List.range (ncomp - 1)).map fun i => fSpec ncomp i)
  else []

/-- `_sort_params_by_location_in_place`: a stable sort of the parameter list
by the `location` key. -/
def sortParamsByLocation (ps : List ParamSpec) : List ParamSpec :=
  ps.mergeSort fun p q => decide (p.location ≤ q.location)

/-- The parameter layout as returned by `get_mixed_weibull`
(`_get_params` followed by the sort by location). -/
def layout (ncomp : ℕ) : List ParamSpec :=
  sortParamsByLocation (getParams ncomp)

/-- `_get_bounds(params)`. -/
def getBounds (ps : List ParamSpec) : List (ℚ × Option ℚ) :=
  ps.map (·.bounds)

/-- `_get_defaults(params)`. -/
def getDefaults (ps : List ParamSpec) : List ℚ :=
  ps.map (·.default)

/-- Python slicing `l[i:]` (single start index, possibly negative, clamped). -/
def pySliceFrom (l : List α) (i : ℤ) : List α :=
  if i < 0 then l.drop (l.length - i.natAbs) else l.drop i.toNat

/-- The single inequality constraint built by `_get_constrains(ncomp)`:
`lambda args: 1 - np.sum(args[1-ncomp:]) + INFINITESIMAL`. -/
def mixedConstrain (ncomp : ℕ) (args : List ℚ) : ℚ :=
  1 - (pySliceFrom args (1 - (ncomp : ℤ))).sum + INFINITESIMAL

/-! #### Closed form of the layout -/

theorem getParams_one : getParams 1 =
    [⟨.beta none, 1, 0, (INFINITESIMAL, none)⟩,
     ⟨.eta none, 1, 1, (INFINITESIMAL, none)⟩] := rfl

theorem getParams_of_lt (k : ℕ) (hk : 1 < k) :
    getParams k =
      ((List.range k).flatMap fun i => [betaSpec i, etaSpec i]) ++
        ((List.range (k - 1)).map fun i => fSpec k i) := by
  unfold getParams
  rw [if_neg (by omega), if_pos hk]

theorem flatMap_betaEta_loc (k : ℕ) :
    ((List.range k).flatMap fun i => [betaSpec i, etaSpec i]).map (·.location)
      = List.range (2 * k) := by
  induction k with
  | zero => rfl
  | succ n ih =>
    rw [List.range_succ, List.flatMap_append, List.map_append, ih]
    show List.range (2 * n) ++ [n * 2, n * 2 + 1] = _
    have h2 : 2 * (n + 1) = (2 * n + 1) + 1 := by omega
    rw [h2, List.range_succ, List.range_succ]
    simp [Nat.mul_comm]

theorem getParams_loc_map (k : ℕ) (hk : 1 ≤ k) :
    (getParams k).map (·.location) = List.range (2 * k + (k - 1)) := by
  rcases Nat.lt_or_ge 1 k with h | h
  · rw [getParams_of_lt k h, List.map_append, flatMap_betaEta_loc,
      List.map_map, List.range_add]
    congr 1
    apply List.map_congr_left
    intro i _
    show k * 2 + i = 2 * k + i
    omega
  · interval_cases k
    · rfl

/-- The parameter list built by `_get_params` is already sorted by location,
so the sort in `get_mixed_weibull` leaves it unchanged. -/
theorem layout_eq_getParams (k : ℕ) (hk : 1 ≤ k) :
    layout k = getParams k := by
  apply List.mergeSort_of_sorted
  have hmap := getParams_loc_map k hk
  have hr : (List.range (2 * k + (k - 1))).Pairwise (· < ·) :=
    List.pairwise_lt_range _
  rw [← hmap, List.pairwise_map] at hr
  exact hr.imp fun h => decide_eq_true (Nat.le_of_lt h)

theorem layout_length (k : ℕ) (hk : 1 ≤ k) :
    (layout k).length = 2 * k + (k - 1) := by
  have := congrArg List.length (getParams_loc_map k hk)
  rw [List.length_map, List.length_range] at this
  rw [layout_eq_getParams k hk, this]

theorem flatMap_betaEta_length (k : ℕ) :
    ((List.range k).flatMap fun i => [betaSpec i, etaSpec i]).length = 2 * k := by
  have := congrArg List.length (flatMap_betaEta_loc k)
  rwa [List.length_map, List.length_range] at this

theorem flatMap_betaEta_get (k : ℕ) :
    ∀ i, i < k →
      ((List.range k).flatMap fun j => [betaSpec j, etaSpec j])[2 * i]?
          = some (betaSpec i) ∧
      ((List.range k).flatMap fun j => [betaSpec j, etaSpec j])[2 * i + 1]?
          = some (etaSpec i) := by
  induction k with
  | zero => intro i h; omega
  | succ n ih =>
    intro i hi
    rw [List.range_succ, List.flatMap_append]
    rcases Nat.lt_or_ge i n with h | h
    · constructor
      · rw [List.getElem?_append_left (by rw [flatMap_betaEta_length]; omega)]
        exact (ih i h).1
      · rw [List.getElem?_append_left (by rw [flatMap_betaEta_length]; omega)]
        exact (ih i h).2
    · have hin : i = n := by omega
      subst hin
      constructor
      · rw [List.getElem?_append_right (by rw [flatMap_betaEta_length])]
        rw [flatMap_betaEta_length]
        simp [Nat.sub_self]
      · rw [List.getElem?_append_right (by rw [flatMap_betaEta_length]; omega)]
        rw [flatMap_betaEta_length]
        have : 2 * i + 1 - 2 * i = 1 := by omega
        rw [this]
        simp

theorem getParams_mem (k : ℕ) (hk : 1 < k) (p : ParamSpec)
    (hp : p ∈ getParams k) :
    (∃ i, i < k ∧ p = betaSpec i) ∨ (∃ i, i < k ∧ p = etaSpec i) ∨
      (∃ i, i < k - 1 ∧ p = fSpec k i) := by
  rw [getParams_of_lt k hk, List.mem_append] at hp
  rcases hp with hp | hp
  · rw [List.mem_flatMap] at hp
    obtain ⟨i, hi, hmem⟩ := hp
    rw [List.mem_range] at hi
    simp only [List.mem_cons, List.mem_singleton] at hmem
    rcases hmem with h | h | h
    · exact Or.inl ⟨i, hi, h⟩
    · exact Or.inr (Or.inl ⟨i, hi, h⟩)
    · cases h
  · rw [List.mem_map] at hp
    obtain ⟨i, hi, hmem⟩ := hp
    rw [List.mem_range] at hi
    exact Or.inr (Or.inr ⟨i, hi, hmem.symm⟩)

/-- Claim C1 — for every `k ≥ 1` the parameter layout produced by
`get_mixed_weibull` has exactly `2k + max(k-1, 0)` entries, listed in
location order (locations `0, 1, …`); for `k = 1` it is exactly the two
parameters `beta` and `eta` with no fraction parameter; for `k > 1` each
component `i` contributes `beta_i` (at location `2(i-1)`) and `eta_i`
(at location `2(i-1)+1`), followed by the `k-1` fraction parameters
`f_1 … f_{k-1}` (at locations `2k, …, 3k-3`); every `beta`/`eta` bound is
`(INFINITESIMAL, unbounded)` with `INFINITESIMAL` positive, every fraction
bound is `[0, 1]`, every `beta`/`eta` default is `1`, and every fraction
default is `1/k`. -/
theorem claim1_layout (k : ℕ) (hk : 1 ≤ k) :
    (layout k).length = 2 * k + (k - 1) ∧
    (layout k).map (·.location) = List.range (2 * k + (k - 1)) ∧
    0 < INFINITESIMAL ∧
    (k = 1 → (layout k).map (·.name) = [PName.beta none, PName.eta none]) ∧
    (∀ p ∈ layout k, (∃ i, p.name = PName.beta i ∨ p.name = PName.eta i) →
      p.bounds = (INFINITESIMAL, none) ∧ p.default = 1) ∧
    (∀ p ∈ layout k, (∃ i, p.name = PName.f i) →
      p.bounds = (0, some 1) ∧ p.default = 1 / k) ∧
    (1 < k → ∀ i, i < k →
      ((layout k)[2 * i]?).map (·.name) = some (PName.beta (some (i + 1))) ∧
      ((layout k)[2 * i + 1]?).map (·.name) = some (PName.eta (some (i + 1)))) ∧
    (1 < k → ∀ j, j < k - 1 →
      ((layout k)[2 * k + j]?).map (·.name) = some (PName.f (j + 1))) := by
  rw [layout_eq_getParams k hk]
  refine ⟨?_, ?_, ?_, ?_, ?_, ?_, ?_, ?_⟩
  · have := congrArg List.length (getParams_loc_map k hk)
    rwa [List.length_map, List.length_range] at this
  · exact getParams_loc_map k hk
  · norm_num [INFINITESIMAL]
  · intro h1; subst h1; rfl
  · intro p hp hname
    rcases Nat.lt_or_ge 1 k with h | h
    · rcases getParams_mem k h p hp with ⟨i, _, rfl⟩ | ⟨i, _, rfl⟩ | ⟨i, _, rfl⟩
      · exact ⟨rfl, rfl⟩
      · exact ⟨rfl, rfl⟩
      · obtain ⟨j, hj⟩ := hname
        rcases hj with hj | hj
        · simp [fSpec] at hj
        · simp [fSpec] at hj
    · interval_cases k
      rw [getParams_one] at hp
      simp only [List.mem_cons, List.mem_singleton] at hp
      rcases hp with rfl | rfl | h
      · exact ⟨rfl, rfl⟩
      · exact ⟨rfl, rfl⟩
      · cases h
  · intro p hp hname
    rcases Nat.lt_or_ge 1 k with h | h
    · rcases getParams_mem k h p hp with ⟨i, _, rfl⟩ | ⟨i, _, rfl⟩ | ⟨i, _, rfl⟩
      · obtain ⟨j, hj⟩ := hname; simp [betaSpec] at hj
      · obtain ⟨j, hj⟩ := hname; simp [etaSpec] at hj
      · exact ⟨rfl, rfl⟩
    · interval_cases k
      rw [getParams_one] at hp
      simp only [List.mem_cons, List.mem_singleton] at hp
      rcases hp with rfl | rfl | h
      · obtain ⟨j, hj⟩ := hname; cases hj
      · obtain ⟨j, hj⟩ := hname; cases hj
      · cases h
  · intro h i hi
    rw [getParams_of_lt k h]
    have hlen := flatMap_betaEta_length k
    constructor
    · rw [List.getElem?_append_left (by omega)]
      rw [(flatMap_betaEta_get k i hi).1]
      rfl
    · rw [List.getElem?_append_left (by omega)]
      rw [(flatMap_betaEta_get k i hi).2]
      rfl
  · intro h j hj
    rw [getParams_of_lt k h]
    have hlen := flatMap_betaEta_length k
    rw [List.getElem?_append_right (by omega)]
    rw [hlen]
    have : 2 * k + j - 2 * k = j := by omega
    rw [this]
    simp [hj, fSpec]

/-- Witness for C1 at `k = 3`. -/
theorem claim1_layout_witness :
    (layout 3).length = 2 * 3 + (3 - 1) ∧
    (layout 3).map (·.location) = List.range (2 * 3 + (3 - 1)) ∧
    0 < INFINITESIMAL ∧
    (3 = 1 → (layout 3).map (·.name) = [PName.beta none, PName.eta none]) ∧
    (∀ p ∈ layout 3, (∃ i, p.name = PName.beta i ∨ p.name = PName.eta i) →
      p.bounds = (INFINITESIMAL, none) ∧ p.default = 1) ∧
    (∀ p ∈ layout 3, (∃ i, p.name = PName.f i) →
      p.bounds = (0, some 1) ∧ p.default = 1 / 3) ∧
    (1 < 3 → ∀ i, i < 3 →
      ((layout 3)[2 * i]?).map (·.name) = some (PName.beta (some (i + 1))) ∧
      ((layout 3)[2 * i + 1]?).map (·.name) = some (PName.eta (some (i + 1)))) ∧
    (1 < 3 → ∀ j, j < 3 - 1 →
      ((layout 3)[2 * 3 + j]?).map (·.name) = some (PName.f (j + 1))) :=
  claim1_layout 3 (by decide)

/-- Claim C2 (code bug at `k = 1`) — `_get_constrains(ncomp)` evaluates
`1 - np.sum(args[1-ncomp:]) + INFINITESIMAL`.  For `ncomp = 2` this sums the
single free fraction (last entry), as the claim states: at the default
vector `[1,1,1,1,1/2]` it evaluates to `1 - 1/2 + ε`.  But for `ncomp = 1`
the slice `args[1-1:] = args[0:]` is the *whole* vector, so the constraint
sums `beta + eta` instead of the (empty) fraction list: at the default
vector `[1,1]` it evaluates to `ε - 1 < 0`, i.e. the inequality constraint
rejects the builder's own default parameters instead of restricting
nothing. -/
theorem claim2_constrain_k1_bug :
    mixedConstrain 1 (getDefaults (layout 1)) = INFINITESIMAL - 1 ∧
    mixedConstrain 1 (getDefaults (layout 1)) < 0 ∧
    mixedConstrain 2 (getDefaults (layout 2)) = 1 - 1 / 2 + INFINITESIMAL := by
  have h1 : getDefaults (layout 1) = [1, 1] := by
    rw [layout_eq_getParams 1 (by norm_num)]; rfl
  have h2 : getDefaults (layout 2) = [1, 1, 1, 1, 1 / 2] := by
    rw [layout_eq_getParams 2 (by norm_num)]; rfl
  rw [h1, h2]
  refine ⟨?_, ?_, ?_⟩
  · norm_num [mixedConstrain, pySliceFrom]; ring
  · norm_num [mixedConstrain, pySliceFrom, INFINITESIMAL]
  · norm_num [mixedConstrain, pySliceFrom]

/-! ### Single-sample resolver: valid range and preprocessing
(`src/resolvers/resolver.py`) -/

/-- First loop of `Resolver.get_valid_data_range`: `start_index` is
initialised to `0` and set to the first index holding a strictly positive
value. -/
def startIndex (y : List ℚ) : ℕ :=
  (y.findIdx? fun v => decide (0 < v)).getD 0

/-- Second loop of `Resolver.get_valid_data_range`: `end_index` is
initialised to `-1` (a Python int, hence `ℤ`) and set to the first index
strictly after `start_index` holding an exact zero. -/
def endIndex (y : List ℚ) : ℤ :=
  match (y.drop (startIndex y + 1)).findIdx? fun v => decide (v = 0) with
  | some j => ((startIndex y + 1 + j : ℕ) : ℤ)
  | none => -1

/-- `Resolver.get_valid_data_range(y_data)`. -/
def getValidDataRange (y : List ℚ) : ℕ × ℤ :=
  (startIndex y, endIndex y)

/-- Python slicing `l[a:b]` with a non-negative start and a possibly
negative stop. -/
def pySlice (l : List α) (a : ℕ) (b : ℤ) : List α :=
  (l.take (if b < 0 then l.length - b.natAbs else min b.toNat l.length)).drop a

/-- The vector `np.array(range(n)) + 1 = [1, 2, …, n]` of window-local
coordinates used as `x_to_fit`. -/
def windowCoords (n : ℕ) : List ℚ :=
  (List.range n).map fun i => (i : ℚ) + 1

/-- `Resolver.preprocess_data` (Weibull branch): computes the valid range,
then `x_to_fit = np.array(range(end-start)) + 1` (window-local coordinates
starting at 1) and `y_to_fit = y_data[start:end]`.  Returns
`(x_to_fit, y_to_fit)`. -/
def preprocessData (y : List ℚ) : List ℚ × List ℚ :=
  (windowCoords ((endIndex y - (startIndex y : ℤ)).toNat),
    pySlice y (startIndex y) (endIndex y))

/-- Claim C3 — whenever the distribution has a strictly positive entry at
`s` preceded only by non-positive entries, and a zero entry at `e > s`
with no zero strictly between `s` and `e`, valid-range detection returns
`(start, end) = (s, e)`, and preprocessing fits exactly the window
`[s, e)`: `y_to_fit = y[s:e]` and `x_to_fit = [1, 2, …, e-s]`, so the
first windowed class has local coordinate 1.  In particular (witness) on
`[0,0,0,2,5,3,0,0,1,0]` it returns `start = 3`, `end = 6` and the window
`([1,2,3], [2,5,3])`. -/
theorem claim3_valid_range (y : List ℚ) (s e : ℕ)
    (hs : s < y.length) (hspos : 0 < y[s])
    (hsfirst : ∀ i (_ : i < s), ¬0 < y[i])
    (he : e < y.length) (hse : s < e) (hezero : y[e] = 0)
    (hefirst : ∀ i (_ : s < i) (_ : i < e), y[i] ≠ 0) :
    getValidDataRange y = (s, (e : ℤ)) ∧
    preprocessData y = (windowCoords (e - s), (y.take e).drop s) := by
  have hfind1 : y.findIdx? (fun v => decide (0 < v)) = some s := by
    rw [List.findIdx?_eq_some_iff_getElem]
    refine ⟨hs, by simpa using hspos, ?_⟩
    intro j hj
    simpa using hsfirst j hj
  have hstart : startIndex y = s := by
    unfold startIndex
    rw [hfind1]
    rfl
  have hfind2 : (y.drop (s + 1)).findIdx? (fun v => decide (v = 0))
      = some (e - (s + 1)) := by
    rw [List.findIdx?_eq_some_iff_getElem]
    have hlen : (y.drop (s + 1)).length = y.length - (s + 1) :=
      List.length_drop _ _
    have hlt : e - (s + 1) < (y.drop (s + 1)).length := by omega
    refine ⟨hlt, ?_, ?_⟩
    · have harg : s + 1 + (e - (s + 1)) = e := by omega
      simp only [List.getElem_drop, harg, hezero]
      simp
    · intro j hj
      simp only [List.getElem_drop]
      simpa using hefirst (s + 1 + j) (by omega) (by omega)
  have hstop : endIndex y = (e : ℤ) := by
    unfold endIndex
    rw [hstart, hfind2]
    simp only
    omega
  have hrange : getValidDataRange y = (s, (e : ℤ)) := by
    unfold getValidDataRange
    rw [hstart, hstop]
  refine ⟨hrange, ?_⟩
  unfold preprocessData
  rw [hstart, hstop]
  simp only [Prod.mk.injEq]
  constructor
  · congr 1
    omega
  · unfold pySlice
    rw [if_neg (by omega)]
    have hmin : ((e : ℤ)).toNat ⊓ y.length = e := by omega
    rw [hmin]

/-- Witness for C3: the spec's example distribution `[0,0,0,2,5,3,0,0,1,0]`
yields `start = 3`, `end = 6`, and the fitted window is `[2,5,3]` with
local coordinates `[1,2,3]` — the non-zero noise at index 8 is excluded. -/
theorem claim3_valid_range_witness :
    getValidDataRange [0, 0, 0, 2, 5, 3, 0, 0, 1, 0] = (3, (6 : ℤ)) ∧
    preprocessData [0, 0, 0, 2, 5, 3, 0, 0, 1, 0] =
      (windowCoords (6 - 3),
        (([0, 0, 0, 2, 5, 3, 0, 0, 1, 0] : List ℚ).take 6).drop 3) := by
  have h := claim3_valid_range ([0, 0, 0, 2, 5, 3, 0, 0, 1, 0] : List ℚ) 3 6
    (by norm_num) (by norm_num)
    (by intro i hi; interval_cases i <;> norm_num)
    (by norm_num) (by norm_num) (by norm_num)
    (by intro i h1 h2; interval_cases i <;> norm_num)
  exact h

/-! ### Kernel library: pdf, mixture function and decoder
(`src/algorithms.py`) -/

/-- `weibull(x, beta, eta)`: the Weibull pdf
`beta/eta*(x/eta)**(beta-1) * np.exp(-(x/eta)**beta)`, with Python float
`**` embedded as the real power `Real.rpow`. -/
noncomputable def weibull (x beta eta : ℝ) : ℝ :=
  beta / eta * (x / eta) ^ (beta - 1) * Real.exp (-(x / eta) ^ beta)

/-- `weibull_mean(beta, eta) = eta*gamma(1/beta+1)`. -/
noncomputable def weibullMean (beta eta : ℝ) : ℝ :=
  eta * Real.Gamma (1 / beta + 1)

/-- The mixture function produced by `_get_lambda_string(ncomp, params)` and
`exec` in `get_mixed_weibull`.  The generated lambda binds `x` followed by
the layout's parameters in location order, so the parameter at location
`loc` reads `args[loc]`: `beta_i` at `2(i-1)`, `eta_i` at `2(i-1)+1`, `f_i`
at `2·ncomp + (i-1)`.  For `ncomp = 1` it is the single pdf; for
`ncomp > 1` it is
`f1*weibull(x,beta1,eta1) + … + (1-f1-…-f_{ncomp-1})*weibull(x,beta_n,eta_n)`.
Out-of-range reads default to 0 (unreachable at the layout's length). -/
noncomputable def mixedWeibull (ncomp : ℕ) (x : ℝ) (args : List ℝ) : ℝ :=
  if ncomp = 1 then weibull x (args.getD 0 0) (args.getD 1 0)
  else
    (∑ i ∈ Finset.range (ncomp - 1),
        args.getD (ncomp * 2 + i) 0 *
          weibull x (args.getD (i * 2) 0) (args.getD (i * 2 + 1) 0)) +
      (1 - ∑ i ∈ Finset.range (ncomp - 1), args.getD (ncomp * 2 + i) 0) *
        weibull x (args.getD ((ncomp - 1) * 2) 0)
          (args.getD ((ncomp - 1) * 2 + 1) 0)

/-- `get_mixed_weibull(ncomp)`: the tuple
`(mixed func, bounds, constrains, defaults, func_params)`. -/
noncomputable def get_mixed_weibull (ncomp : ℕ) :
    (ℝ → List ℝ → ℝ) × List (ℚ × Option ℚ) × (List ℚ → ℚ) × List ℚ ×
      List ParamSpec :=
  (mixedWeibull ncomp, getBounds (layout ncomp), mixedConstrain ncomp,
    getDefaults (layout ncomp), layout ncomp)

/-- `processed[ci][pos] = v` on a Python list of lists. -/
def setAt (ls : List (List ℝ)) (ci pos : ℕ) (v : ℝ) : List (List ℝ) :=
  ls.set ci ((ls.getD ci []).set pos v)

/-- One iteration of the decoding loop in `process_params`: dispatch on the
name prefix (`beta…`/`eta…`/`f…`); a fraction entry additionally subtracts
its value from the last component's weight (`processed[-1][2] -= v`).
The unnumbered `beta`/`eta` names only occur for `ncomp = 1`, whose branch
returns before this loop runs, so those cases are unreachable (in Python
they would raise in `int(name[4:])`). -/
def decodeStep (fitted : List ℝ) (ls : List (List ℝ)) (p : ParamSpec) :
    List (List ℝ) :=
  match p.name with
  | .beta (some n) => setAt ls (n - 1) 0 (fitted.getD p.location 0)
  | .eta (some n) => setAt ls (n - 1) 1 (fitted.getD p.location 0)
  | .f n =>
      let v := fitted.getD p.location 0
      let ls1 := setAt ls (n - 1) 2 v
      setAt ls1 (ls1.length - 1) 2
        (((ls1.getD (ls1.length - 1) []).getD 2 0) - v)
  | .beta none => ls
  | .eta none => ls

open Classical in
/-- The sort `processed.sort(key=lambda element: weibull_mean(*element[:-1]))`:
a stable ascending sort keyed on the Weibull mean of the first two entries
(shape, scale) of each decoded component. -/
noncomputable def sortByMean (ls : List (List ℝ)) : List (List ℝ) :=
  ls.mergeSort fun a b =>
    decide (weibullMean (a.getD 0 0) (a.getD 1 0) ≤
      weibullMean (b.getD 0 0) (b.getD 1 0))

/-- `process_params(ncomp, func_params, fitted_params)`:
for `ncomp = 1` it returns the single `(beta, eta)` tuple (no weight entry);
for `ncomp > 1` it initialises `ncomp` lists `[None, None, 1]` (the `None`
placeholder is embedded as `0`; every such slot is overwritten for the
layouts produced by `_get_params`), runs the decoding loop over
`func_params`, and sorts the result by component mean.  For `ncomp ≤ 0` the
source raises `ValueError` (embedded as `[]`, unreachable below). -/
noncomputable def processParams (ncomp : ℕ) (funcParams : List ParamSpec)
    (fitted : List ℝ) : List (List ℝ) :=
  if ncomp = 1 then [[fitted.getD 0 0, fitted.getD 1 0]]
  else if 1 < ncomp then
    sortByMean
      (funcParams.foldl (decodeStep fitted) (List.replicate ncomp [0, 0, 1]))
  else []

/-! #### Closed form of the decoding loop -/

/-- The `beta` entry of the flat fitted vector for component `i` (0-based):
location `i*2` in the layout. -/
def fittedB (fitted : List ℝ) (i : ℕ) : ℝ := fitted.getD (i * 2) 0

/-- The `eta` entry of the flat fitted vector for component `i` (0-based):
location `i*2 + 1` in the layout. -/
def fittedE (fitted : List ℝ) (i : ℕ) : ℝ := fitted.getD (i * 2 + 1) 0

/-- The free fraction entry of the flat fitted vector for component `i`
(0-based, `i < k-1`): location `k*2 + i` in the layout. -/
def fittedF (fitted : List ℝ) (k i : ℕ) : ℝ := fitted.getD (k * 2 + i) 0

theorem getD_rangeMap (k : ℕ) (g : ℕ → List ℝ) (ci : ℕ) (h : ci < k) :
    ((List.range k).map g).getD ci [] = g ci := by
  rw [List.getD_eq_getElem?_getD, List.getElem?_map, List.getElem?_range h]
  rfl

theorem setAt_rangeMap (k : ℕ) (g : ℕ → List ℝ) (ci pos : ℕ) (v : ℝ)
    (h : ci < k) :
    setAt ((List.range k).map g) ci pos v
      = (List.range k).map fun i =>
          if i = ci then (g ci).set pos v else g i := by
  unfold setAt
  rw [getD_rangeMap k g ci h]
  apply List.ext_getElem
  · simp
  · intro i h1 h2
    simp only [List.getElem_set, List.getElem_map, List.getElem_range]
    by_cases hic : ci = i
    · subst hic
      simp
    · rw [if_neg hic, if_neg (fun hh => hic hh.symm)]

/-- State of `processed` after the first `m` components' `beta`/`eta`
entries have been decoded (all weights still 1). -/
def stateA (fitted : List ℝ) (k m : ℕ) : List (List ℝ) :=
  (List.range k).map fun i =>
    if i < m then [fittedB fitted i, fittedE fitted i, 1] else [0, 0, 1]

/-- State of `processed` after additionally decoding the first `m` fraction
entries: component `i < m` has weight `f_i`, the last component's weight has
had those fractions subtracted, everything else still has weight 1. -/
def stateB (fitted : List ℝ) (k m : ℕ) : List (List ℝ) :=
  (List.range k).map fun i =>
    if i < m then [fittedB fitted i, fittedE fitted i, fittedF fitted k i]
    else if i = k - 1 then
      [fittedB fitted i, fittedE fitted i,
        1 - ∑ j ∈ Finset.range m, fittedF fitted k j]
    else [fittedB fitted i, fittedE fitted i, 1]

theorem replicate_eq_stateA (fitted : List ℝ) (k : ℕ) :
    List.replicate k ([0, 0, 1] : List ℝ) = stateA fitted k 0 := by
  unfold stateA
  apply List.ext_getElem
  · simp
  · intro i h1 h2
    simp

theorem decodeStep_beta (fitted : List ℝ) (ls : List (List ℝ)) (n : ℕ) :
    decodeStep fitted ls (betaSpec n) = setAt ls n 0 (fittedB fitted n) := rfl

theorem decodeStep_eta (fitted : List ℝ) (ls : List (List ℝ)) (n : ℕ) :
    decodeStep fitted ls (etaSpec n) = setAt ls n 1 (fittedE fitted n) := rfl

theorem decodeStep_f (fitted : List ℝ) (ls : List (List ℝ)) (k n : ℕ) :
    decodeStep fitted ls (fSpec k n) =
      setAt (setAt ls n 2 (fittedF fitted k n))
        ((setAt ls n 2 (fittedF fitted k n)).length - 1) 2
        ((((setAt ls n 2 (fittedF fitted k n)).getD
            ((setAt ls n 2 (fittedF fitted k n)).length - 1) []).getD 2 0)
          - fittedF fitted k n) := rfl

theorem foldl_betaEta_closed (fitted : List ℝ) (k : ℕ) :
    ∀ m, m ≤ k →
      ((List.range m).flatMap fun i => [betaSpec i, etaSpec i]).foldl
          (decodeStep fitted) (stateA fitted k 0) = stateA fitted k m := by
  intro m
  induction m with
  | zero => intro _; rfl
  | succ n ih =>
    intro hm
    have hnk : n < k := by omega
    rw [List.range_succ, List.flatMap_append, List.foldl_append, ih (by omega)]
    show decodeStep fitted
        (decodeStep fitted (stateA fitted k n) (betaSpec n)) (etaSpec n)
        = stateA fitted k (n + 1)
    have hb : decodeStep fitted (stateA fitted k n) (betaSpec n)
        = (List.range k).map fun i =>
            if i < n then [fittedB fitted i, fittedE fitted i, 1]
            else if i = n then [fittedB fitted n, 0, 1]
            else [0, 0, 1] := by
      rw [decodeStep_beta]
      unfold stateA
      rw [setAt_rangeMap k _ n 0 _ hnk]
      apply List.map_congr_left
      intro i hi
      by_cases h1 : i = n
      · subst h1
        rw [if_pos rfl, if_neg (lt_irrefl i), if_neg (lt_irrefl i), if_pos rfl]
        rfl
      · rw [if_neg h1]
        by_cases h2 : i < n
        · rw [if_pos h2, if_pos h2]
        · rw [if_neg h2, if_neg h2, if_neg h1]
    rw [hb, decodeStep_eta, setAt_rangeMap k _ n 1 _ hnk]
    unfold stateA
    apply List.map_congr_left
    intro i hi
    by_cases h1 : i = n
    · subst h1
      rw [if_pos rfl, if_neg (lt_irrefl i), if_pos rfl, if_pos (Nat.lt_succ_self i)]
      rfl
    · rw [if_neg h1]
      by_cases h2 : i < n
      · rw [if_pos h2, if_pos (by omega)]
      · rw [if_neg h2, if_neg h1, if_neg (by omega)]

theorem foldl_fraction_closed (fitted : List ℝ) (k : ℕ) (hk : 1 ≤ k) :
    ∀ m, m ≤ k - 1 →
      ((List.range m).map fun i => fSpec k i).foldl (decodeStep fitted)
          (stateA fitted k k) = stateB fitted k m := by
  intro m
  induction m with
  | zero =>
    intro _
    unfold stateA stateB
    apply List.map_congr_left
    intro i hi
    rw [List.mem_range] at hi
    rw [if_pos hi, if_neg (Nat.not_lt_zero i)]
    by_cases h1 : i = k - 1
    · rw [if_pos h1]
      simp
    · rw [if_neg h1]
  | succ n ih =>
    intro hm
    have hn1 : n < k - 1 := by omega
    have hnk : n < k := by omega
    have hne : n ≠ k - 1 := by omega
    rw [List.range_succ, List.map_append, List.foldl_append, ih (by omega)]
    show decodeStep fitted (stateB fitted k n) (fSpec k n)
        = stateB fitted k (n + 1)
    rw [decodeStep_f]
    have hL : setAt (stateB fitted k n) n 2 (fittedF fitted k n)
        = (List.range k).map fun i =>
            if i < n then [fittedB fitted i, fittedE fitted i, fittedF fitted k i]
            else if i = n then
              [fittedB fitted n, fittedE fitted n, fittedF fitted k n]
            else if i = k - 1 then
              [fittedB fitted i, fittedE fitted i,
                1 - ∑ j ∈ Finset.range n, fittedF fitted k j]
            else [fittedB fitted i, fittedE fitted i, 1] := by
      unfold stateB
      rw [setAt_rangeMap k _ n 2 _ hnk]
      apply List.map_congr_left
      intro i hi
      by_cases h1 : i = n
      · subst h1
        rw [if_pos rfl, if_neg (lt_irrefl i), if_neg hne, if_neg (lt_irrefl i),
          if_pos rfl]
        rfl
      · rw [if_neg h1]
        by_cases h2 : i < n
        · rw [if_pos h2, if_pos h2]
        · rw [if_neg h2, if_neg h2, if_neg h1]
    rw [hL]
    have hlen : ((List.range k).map fun i =>
        if i < n then [fittedB fitted i, fittedE fitted i, fittedF fitted k i]
        else if i = n then
          [fittedB fitted n, fittedE fitted n, fittedF fitted k n]
        else if i = k - 1 then
          [fittedB fitted i, fittedE fitted i,
            1 - ∑ j ∈ Finset.range n, fittedF fitted k j]
        else [fittedB fitted i, fittedE fitted i, 1]).length = k := by
      simp
    rw [hlen]
    have hgd : ((List.range k).map fun i =>
        if i < n then [fittedB fitted i, fittedE fitted i, fittedF fitted k i]
        else if i = n then
          [fittedB fitted n, fittedE fitted n, fittedF fitted k n]
        else if i = k - 1 then
          [fittedB fitted i, fittedE fitted i,
            1 - ∑ j ∈ Finset.range n, fittedF fitted k j]
        else [fittedB fitted i, fittedE fitted i, 1]).getD (k - 1) []
        = [fittedB fitted (k - 1), fittedE fitted (k - 1),
            1 - ∑ j ∈ Finset.range n, fittedF fitted k j] := by
      rw [getD_rangeMap k _ (k - 1) (by omega)]
      rw [if_neg (by omega), if_neg (by omega), if_pos rfl]
    rw [hgd]
    have hgd2 : ([fittedB fitted (k - 1), fittedE fitted (k - 1),
        1 - ∑ j ∈ Finset.range n, fittedF fitted k j] : List ℝ).getD 2 0
        = 1 - ∑ j ∈ Finset.range n, fittedF fitted k j := rfl
    rw [hgd2]
    rw [setAt_rangeMap k _ (k - 1) 2 _ (by omega)]
    unfold stateB
    apply List.map_congr_left
    intro i hi
    rw [List.mem_range] at hi
    by_cases h1 : i = k - 1
    · rw [h1]
      rw [if_pos rfl, if_neg (by omega), if_neg (by omega), if_pos rfl,
        if_neg (by omega), if_pos rfl]
      have hsum : (1 - ∑ j ∈ Finset.range n, fittedF fitted k j)
            - fittedF fitted k n
          = 1 - ∑ j ∈ Finset.range (n + 1), fittedF fitted k j := by
        rw [Finset.sum_range_succ]
        ring
      rw [← hsum]
      rfl
    · rw [if_neg h1]
      by_cases h2 : i < n
      · rw [if_pos h2, if_pos (by omega)]
      · by_cases h3 : i = n
        · subst h3
          rw [if_neg h2, if_pos rfl, if_pos (Nat.lt_succ_self i)]
        · rw [if_neg h2, if_neg h3, if_neg h1, if_neg (by omega), if_neg h1]

/-- The decoding loop over the `k ≥ 2` layout, started from the initial
`[[0,0,1], …]` state, ends in the closed-form state: component `i < k-1`
carries `(beta_i, eta_i, f_i)` read directly from the flat vector, and the
last component carries weight `1 - Σ f_i`. -/
theorem decode_closed (fitted : List ℝ) (k : ℕ) (hk : 2 ≤ k) :
    (layout k).foldl (decodeStep fitted) (List.replicate k [0, 0, 1])
      = stateB fitted k (k - 1) := by
  rw [layout_eq_getParams k (by omega), getParams_of_lt k (by omega),
    List.foldl_append, replicate_eq_stateA fitted k,
    foldl_betaEta_closed fitted k k le_rfl]
  exact foldl_fraction_closed fitted k (by omega) (k - 1) le_rfl

/-- The sort key used by `process_params`:
`weibull_mean(*element[:-1])`, i.e. the Weibull mean of the decoded
component's first two entries (shape, scale). -/
noncomputable def keyMean (l : List ℝ) : ℝ :=
  weibullMean (l.getD 0 0) (l.getD 1 0)

/-- Claim C4 — for every `k ≥ 1` and every fitted vector with positive
shape and scale entries, the decoded components reported by
`process_params` are ordered by non-decreasing Weibull mean
`eta * Γ(1/beta + 1)`: the output list is pairwise sorted under the mean
key.  (For `k = 1` the single reported `(beta, eta)` pair is trivially
ordered.) -/
theorem claim4_sorted (k : ℕ) (hk : 1 ≤ k) (fitted : List ℝ)
    (hpos : ∀ i, i < k → 0 < fittedB fitted i ∧ 0 < fittedE fitted i) :
    (processParams k (layout k) fitted).Pairwise
      fun a b => keyMean a ≤ keyMean b := by
  by_cases h1 : k = 1
  · subst h1
    unfold processParams
    rw [if_pos rfl]
    exact List.pairwise_singleton _ _
  · have hk2 : 1 < k := by omega
    unfold processParams
    rw [if_neg h1, if_pos hk2]
    unfold sortByMean
    refine List.Pairwise.imp ?_ (List.sorted_mergeSort ?_ ?_ _)
    · intro a b h
      exact of_decide_eq_true h
    · intro a b c hab hbc
      simp only [decide_eq_true_eq] at hab hbc ⊢
      exact le_trans hab hbc
    · intro a b
      simp only [Bool.or_eq_true, decide_eq_true_eq]
      exact le_total _ _

/-- Witness for C4 at `k = 2`, `fitted = [1, 2, 1, 1, 1/4]`. -/
theorem claim4_sorted_witness :
    (∀ i, i < 2 → 0 < fittedB [1, 2, 1, 1, 1 / 4] i ∧
      0 < fittedE [1, 2, 1, 1, 1 / 4] i) ∧
    (processParams 2 (layout 2) [1, 2, 1, 1, 1 / 4]).Pairwise
      (fun a b => keyMean a ≤ keyMean b) := by
  have hpos : ∀ i, i < 2 → 0 < fittedB ([1, 2, 1, 1, 1 / 4] : List ℝ) i ∧
      0 < fittedE ([1, 2, 1, 1, 1 / 4] : List ℝ) i := by
    intro i h
    interval_cases i <;> constructor <;> norm_num [fittedB, fittedE]
  exact ⟨hpos, claim4_sorted 2 (by omega) _ hpos⟩

theorem sum_map_range (n : ℕ) (f : ℕ → ℝ) :
    ((List.range n).map f).sum = ∑ i ∈ Finset.range n, f i := by
  induction n with
  | zero => rfl
  | succ m ih =>
    rw [List.range_succ, List.map_append, List.sum_append, ih,
      Finset.sum_range_succ]
    simp

/-- Claim C5 — for every `k ≥ 1`, vector and evaluation point, the sum over
the components decoded by `process_params` of
`weight_i · weibull(x, shape_i, scale_i)` equals the generated mixture
function applied to the original flat vector; the last decoded weight is
`1 - Σ` free fractions, and for `k = 1` (where the decoder reports a bare
`(beta, eta)` pair) the weight is implicitly 1 (`getD 2 1`).  Decoding and
sorting do not alter the reconstructed mixture values. -/
theorem claim5_roundtrip (k : ℕ) (hk : 1 ≤ k) (fitted : List ℝ) (x : ℝ) :
    ((processParams k (layout k) fitted).map
        fun l => l.getD 2 1 * weibull x (l.getD 0 0) (l.getD 1 0)).sum
      = mixedWeibull k x fitted := by
  by_cases h1 : k = 1
  · subst h1
    unfold processParams mixedWeibull
    rw [if_pos rfl, if_pos rfl]
    show (1 : ℝ) * weibull x (fitted.getD 0 0) (fitted.getD 1 0) + 0 = _
    ring
  · have hk2 : 1 < k := by omega
    unfold processParams
    rw [if_neg h1, if_pos hk2, decode_closed fitted k (by omega)]
    have hperm : ((sortByMean (stateB fitted k (k - 1))).map
        fun l => l.getD 2 1 * weibull x (l.getD 0 0) (l.getD 1 0)).sum
        = ((stateB fitted k (k - 1)).map
            fun l => l.getD 2 1 * weibull x (l.getD 0 0) (l.getD 1 0)).sum :=
      ((List.mergeSort_perm _ _).map _).sum_eq
    rw [hperm]
    obtain ⟨m, rfl⟩ : ∃ m, k = m + 1 := ⟨k - 1, by omega⟩
    unfold stateB mixedWeibull
    rw [if_neg h1, Nat.add_sub_cancel, List.map_map, sum_map_range,
      Finset.sum_range_succ]
    congr 1
    · apply Finset.sum_congr rfl
      intro i hi
      rw [Finset.mem_range] at hi
      simp only [Function.comp_apply]
      rw [if_pos hi]
      rfl
    · simp only [Function.comp_apply]
      rw [if_neg (lt_irrefl m)]
      simp only [if_true]
      rfl

/-- Witness for C5 at `k = 2`, `fitted = [1, 2, 3, 4, 1/4]`, `x = 1`. -/
theorem claim5_roundtrip_witness :
    ((processParams 2 (layout 2) [1, 2, 3, 4, 1 / 4]).map
        fun l => l.getD 2 1 * weibull 1 (l.getD 0 0) (l.getD 1 0)).sum
      = mixedWeibull 2 1 [1, 2, 3, 4, 1 / 4] :=
  claim5_roundtrip 2 (by omega) [1, 2, 3, 4, 1 / 4] 1

/-! ### Single-sample resolver state, validation and setters
(`src/resolvers/resolver.py`) -/

/-- Modelled from the spec: the distribution-family enum referenced by the
resolver (`DistributionType.Weibull`) is imported from a module that is not
part of the sources; per the spec only the Weibull family is implemented.
-/
inductive DistributionType where
  | Weibull
deriving DecidableEq

/-- A Python float: either NaN or an ordinary (exactly represented)
value. -/
inductive PyFloat where
  | nan
  | val (q : ℚ)
deriving DecidableEq

/-- A value passed to `feed_data`: `None`, some non-`ndarray` object, or an
`ndarray` of floats. -/
inductive PyObj where
  | none
  | notArray
  | arr (vals : List PyFloat)
deriving DecidableEq

def isNdarray : PyObj → Bool
  | .arr _ => true
  | _ => false

def objLen : PyObj → ℕ
  | .arr l => l.length
  | _ => 0

def hasNan : PyObj → Bool
  | .arr l => l.contains .nan
  | _ => false

/-- `Resolver.validate_data(x, y)`: the seven checks in source order, each
raising `DataInvalidError` with the indicated message. -/
def validateData (x y : PyObj) : Except String Unit :=
  if x = PyObj.none then .error "`x` is `None`."
  else if y = PyObj.none then .error "`y` is `None`."
  else if isNdarray x = false then
    .error "Type of `x` is not `numpy.ndarray`."
  else if isNdarray y = false then
    .error "Type of `y` is not `numpy.ndarray`."
  else if objLen x ≠ objLen y then
    .error "The lengths of `x` and `y` are not equal."
  else if hasNan x then .error "There is `nan` in `x`."
  else if hasNan y then .error "There is `nan` in `y`."
  else .ok ()

/-- The mutable state of a `Resolver` instance: configuration, the derived
mixture data rebuilt by `refresh_by_ncomp` / `refresh_by_distribution_type`,
and the per-sample data installed by `feed_data`. -/
structure ResolverState where
  distribution_type : DistributionType
  ncomp : ℕ
  mixed_func : ℝ → List ℝ → ℝ
  bounds : List (ℚ × Option ℚ)
  constrains : List ℚ → ℚ
  defaults : List ℚ
  params : List ParamSpec
  initial_guess : List ℚ
  single_func : ℝ → ℝ → ℝ → ℝ
  mean_func : ℝ → ℝ → ℝ
  real_x : Option (List PyFloat)
  y_data : Option (List PyFloat)
  start_index : Option ℕ
  end_index : Option ℤ
  x_to_fit : Option (List ℚ)
  y_to_fit : Option (List ℚ)

/-- `Resolver.refresh_by_ncomp`: rebuilds
`(mixed_func, bounds, constrains, defaults, params)` from
`get_mixed_func(ncomp)` (which is `get_mixed_weibull` for the Weibull
family) and resets `initial_guess` to the defaults. -/
noncomputable def refreshByNcomp (st : ResolverState) : ResolverState :=
  { st with
    mixed_func := (get_mixed_weibull st.ncomp).1
    bounds := (get_mixed_weibull st.ncomp).2.1
    constrains := (get_mixed_weibull st.ncomp).2.2.1
    defaults := (get_mixed_weibull st.ncomp).2.2.2.1
    params := (get_mixed_weibull st.ncomp).2.2.2.2
    initial_guess := (get_mixed_weibull st.ncomp).2.2.2.1 }

/-- `Resolver.refresh_by_distribution_type`: installs the Weibull kernel
functions (the only implemented family; others raise
`NotImplementedError`). -/
noncomputable def refreshByDistributionType (st : ResolverState) :
    ResolverState :=
  match st.distribution_type with
  | .Weibull => { st with single_func := weibull, mean_func := weibullMean }

/-- The argument of the `ncomp` property setter: a Python int or a value of
any other type (`type(value) != int`). -/
inductive PyIntArg where
  | int (n : ℤ)
  | notInt

/-- The argument of the `distribution_type` property setter. -/
inductive PyDTArg where
  | dt (d : DistributionType)
  | notDT

/-- The `ncomp` setter: returns silently (no state change, no error) unless
the value is an int strictly greater than 1, in which case it stores the
value and rebuilds via `refresh_by_ncomp`. -/
noncomputable def setNcomp (st : ResolverState) (v : PyIntArg) :
    ResolverState :=
  match v with
  | .notInt => st
  | .int n => if n ≤ 1 then st else refreshByNcomp { st with ncomp := n.toNat }

/-- The `distribution_type` setter: returns silently unless the value is a
`DistributionType`, in which case it stores it and rebuilds via
`refresh_by_distribution_type`. -/
noncomputable def setDistributionType (st : ResolverState) (v : PyDTArg) :
    ResolverState :=
  match v with
  | .notDT => st
  | .dt d => refreshByDistributionType { st with distribution_type := d }

/-- `Resolver.__init__`: Weibull family, `ncomp = 2`, both refreshes run,
no data fed yet.  (The pre-refresh function fields do not exist in Python;
they are given vacuous placeholders which both refreshes overwrite.) -/
noncomputable def initState : ResolverState :=
  refreshByNcomp (refreshByDistributionType
    { distribution_type := .Weibull
      ncomp := 2
      mixed_func := fun _ _ => 0
      bounds := []
      constrains := fun _ => 0
      defaults := []
      params := []
      initial_guess := []
      single_func := fun _ _ _ => 0
      mean_func := fun _ _ => 0
      real_x := Option.none
      y_data := Option.none
      start_index := Option.none
      end_index := Option.none
      x_to_fit := Option.none
      y_to_fit := Option.none })

/-- Outcome of a `feed_data` call: the resulting state, whether an
exception escaped to the caller, and which hooks ran. -/
structure FeedOutcome where
  state : ResolverState
  raised : Bool
  invalid_hook : Bool
  fed_hook : Bool

def toRatList (l : List PyFloat) : List ℚ :=
  l.map fun v => match v with | .nan => 0 | .val q => q

/-- `Resolver.feed_data(x, y)`.  On validation failure the handler runs
`self.on_data_invalid(x, y, e.message)` — but Python 3 exceptions define no
`message` attribute and `DataInvalidError` adds none, so evaluating
`e.message` raises `AttributeError` before the hook is entered: the
exception escapes, no hook runs, and the stored data is unchanged.  On
success the data is stored, `preprocess_data` runs and `on_data_fed` is
invoked. -/
noncomputable def feedData (st : ResolverState) (x y : PyObj) : FeedOutcome :=
  match validateData x y with
  | .error _msg => ⟨st, true, false, false⟩
  | .ok _ =>
      match y with
      | .arr ly =>
          let yq := toRatList ly
          ⟨{ st with
              real_x := match x with | .arr lx => some lx | _ => Option.none
              y_data := some ly
              start_index := some (getValidDataRange yq).1
              end_index := some (getValidDataRange yq).2
              x_to_fit := some (preprocessData yq).1
              y_to_fit := some (preprocessData yq).2 },
            false, false, true⟩
      | _ => ⟨st, true, false, false⟩

/-- Claim C6 (code bug) — for each class of invalid input (`x` is `None`,
`x` not an array, unequal lengths, NaN present), `feed_data` does *not*
invoke `on_data_invalid` and return normally as the claim states: the
`except` handler evaluates `e.message`, which no Python 3 exception
provides, so an `AttributeError` propagates to the caller.  The stored fit
state is still left unchanged (the exception fires before any
assignment). -/
theorem claim6_feed_data_bug :
    feedData initState PyObj.none (PyObj.arr []) =
      ⟨initState, true, false, false⟩ ∧
    feedData initState PyObj.notArray (PyObj.arr []) =
      ⟨initState, true, false, false⟩ ∧
    feedData initState (PyObj.arr [.val 1]) (PyObj.arr []) =
      ⟨initState, true, false, false⟩ ∧
    feedData initState (PyObj.arr [.nan]) (PyObj.arr [.val 1]) =
      ⟨initState, true, false, false⟩ :=
  ⟨rfl, rfl, rfl, rfl⟩

/-- Claim C10 — the `ncomp` setter is a silent no-op on any non-int and on
any int `≤ 1` (including `ncomp = 1`, which `_check_ncomp` itself accepts):
the state, hence the derived mixture function, bounds, constraints,
defaults and layout, is returned unchanged and no error is raised (the
setter is total).  Only an int `> 1` stores the value and rebuilds every
derived field from `get_mixed_weibull`; and the `distribution_type` setter
is likewise a silent no-op on any non-`DistributionType` value. -/
theorem claim10_setters (st : ResolverState) :
    setNcomp st PyIntArg.notInt = st ∧
    (∀ n : ℤ, n ≤ 1 → setNcomp st (PyIntArg.int n) = st) ∧
    (∀ n : ℤ, 1 < n →
      (setNcomp st (PyIntArg.int n)).ncomp = n.toNat ∧
      (setNcomp st (PyIntArg.int n)).params = layout n.toNat ∧
      (setNcomp st (PyIntArg.int n)).bounds = getBounds (layout n.toNat) ∧
      (setNcomp st (PyIntArg.int n)).defaults = getDefaults (layout n.toNat) ∧
      (setNcomp st (PyIntArg.int n)).initial_guess
        = getDefaults (layout n.toNat) ∧
      (setNcomp st (PyIntArg.int n)).mixed_func = mixedWeibull n.toNat ∧
      (setNcomp st (PyIntArg.int n)).constrains = mixedConstrain n.toNat) ∧
    setDistributionType st PyDTArg.notDT = st := by
  have hint : ∀ n : ℤ, setNcomp st (PyIntArg.int n)
      = if n ≤ 1 then st else refreshByNcomp { st with ncomp := n.toNat } :=
    fun _ => rfl
  refine ⟨rfl, ?_, ?_, rfl⟩
  · intro n hn
    rw [hint, if_pos hn]
  · intro n hn
    rw [hint, if_neg (by omega)]
    exact ⟨rfl, rfl, rfl, rfl, rfl, rfl, rfl⟩

/-- Witness for C10 at the freshly initialised resolver state: assigning
`1` (or a non-int) changes nothing; assigning `3` rebuilds with
`ncomp = 3`. -/
theorem claim10_setters_witness :
    setNcomp initState PyIntArg.notInt = initState ∧
    setNcomp initState (PyIntArg.int 1) = initState ∧
    (setNcomp initState (PyIntArg.int 3)).ncomp = 3 ∧
    setDistributionType initState PyDTArg.notDT = initState := by
  obtain ⟨h1, h2, h3, h4⟩ := claim10_setters initState
  refine ⟨h1, h2 1 (by omega), ?_, h4⟩
  have h5 := (h3 3 (by omega)).1
  simpa using h5

/-! ### Joint (UDM) resolver training loop (`src/QGrain/udm/_resolver.py`)

The torch numerics (forward pass, autograd, optimizer step) are abstracted
into per-iteration oracles: since the training loop is deterministic, the
distribution loss, component loss and parameter snapshot produced at each
pretrain / main iteration are functions of the iteration index alone.  The
loop structure — order of appends, the NaN hard stop, the early-stopping
check — is embedded faithfully from `UDMResolver.try_fit`.  A possibly-NaN
float is `Option ℚ` (`none` = NaN). -/

/-- A possibly-NaN float value. -/
abbrev Flt := Option ℚ

/-- Float addition: NaN-propagating. -/
def fltAdd : Flt → Flt → Flt
  | some a, some b => some (a + b)
  | _, _ => none

/-- Multiplication of a float by a finite constant: NaN-propagating. -/
def fltMul (c : ℚ) : Flt → Flt
  | some a => some (c * a)
  | none => none

/-- Float subtraction: NaN-propagating. -/
def fltSub : Flt → Flt → Flt
  | some a, some b => some (a - b)
  | _, _ => none

/-- `np.mean`: NaN on the empty array (with a runtime warning) and when any
entry is NaN; otherwise the arithmetic mean. -/
def fltMean (l : List Flt) : Flt :=
  if l.length = 0 ∨ Option.none ∈ l then none
  else some ((l.filterMap id).sum / l.length)

/-- Float `<`: any comparison with NaN is `False`. -/
def fltLt : Flt → Flt → Bool
  | some a, some b => decide (a < b)
  | _, _ => false

/-- Python list slice `l[-a:-b]` for literal negative bounds `-a < -b < 0`
(start and stop clamped to 0 by ℕ subtraction). -/
def sliceNegNeg (l : List α) (a b : ℕ) : List α :=
  (l.drop (l.length - a)).take ((l.length - b) - (l.length - a))

/-- Python list slice `l[-a:]` (start clamped to 0). -/
def lastSlice (l : List α) (a : ℕ) : List α :=
  l.drop (l.length - a)

/-- The fields of `UDMAlgorithmSetting` that the `try_fit` loop reads for
its control flow.  `device`, `learning_rate` and `betas` only parameterise
the torch numerics abstracted into the oracles.  `precision` and
`constraint_level` enter as exponents of 10 and are embedded as integers.
-/
structure UDMSetting where
  pretrain_epochs : ℕ
  min_epochs : ℕ
  max_epochs : ℕ
  precision : ℤ
  constraint_level : ℤ

/-- What one pretrain iteration produces: the distribution loss recorded
and the parameter snapshot appended to the history. -/
structure PretrainStep (P : Type) where
  dist : Flt
  snap : P

/-- What one main-phase iteration produces: distribution loss, component
(divergence) loss, and the parameter snapshot. -/
structure MainStep (P : Type) where
  dist : Flt
  comp : Flt
  snap : P

/-- The three parallel series accumulated by `try_fit`:
`distribution_loss_series`, `component_loss_series`, `history`. -/
structure TrainState (P : Type) where
  dls : List Flt
  cls : List Flt
  history : List P

/-- `loss = distribution_loss + (10**s.constraint_level) * component_loss`.
-/
def totalLoss (s : UDMSetting) (st : MainStep P) : Flt :=
  fltAdd st.dist (fltMul ((10 : ℚ) ^ s.constraint_level) st.comp)

/-- `delta_loss = np.mean(dls[-100:-80]) - np.mean(dls[-20:])`. -/
def deltaLoss (dls : List Flt) : Flt :=
  fltSub (fltMean (sliceNegNeg dls 100 80)) (fltMean (lastSlice dls 20))

/-- The early-stopping test run after appending iteration `epoch`'s
entries: only once `epoch > s.min_epochs`, stop when the improvement of the
windowed distribution-loss means falls below `10**(-s.precision)` (any NaN
mean compares `False`). -/
def earlyStop (s : UDMSetting) (epoch : ℕ) (dls : List Flt) : Bool :=
  decide (s.min_epochs < epoch) &&
    fltLt (deltaLoss dls) (some ((10 : ℚ) ^ (-s.precision)))

/-- The pretrain loop: for each epoch in `range(pretrain_epochs)`, append
the distribution loss, a literal `0.0` component loss, and the parameter
snapshot; no NaN check, no early stopping. -/
def pretrainPhase (pre : ℕ → PretrainStep P) (p : ℕ) (ts : TrainState P) :
    TrainState P :=
  (List.range p).foldl
    (fun ts i =>
      { dls := ts.dls ++ [(pre i).dist]
        cls := ts.cls ++ [some 0]
        history := ts.history ++ [(pre i).snap] })
    ts

/-- The main-phase loop of `try_fit`, from epoch `e` with `fuel` epochs of
budget left (`fuel = max_epochs - e` at the top call).  Per epoch: if the
total loss is NaN, break immediately (nothing appended); otherwise append
the distribution loss, the scaled component loss and the snapshot, then
run the early-stopping check.  Returns the final series and the number of
iterations that appended entries. -/
def stepAppend (s : UDMSetting) (orc : ℕ → MainStep P) (e : ℕ)
    (ts : TrainState P) : TrainState P :=
  { dls := ts.dls ++ [(orc e).dist]
    cls := ts.cls ++ [fltMul ((10 : ℚ) ^ s.constraint_level) (orc e).comp]
    history := ts.history ++ [(orc e).snap] }

def mainLoop (s : UDMSetting) (orc : ℕ → MainStep P) :
    ℕ → ℕ → TrainState P → TrainState P × ℕ
  | 0, _, ts => (ts, 0)
  | fuel + 1, e, ts =>
    if totalLoss s (orc e) = Option.none then (ts, 0)
    else
      if earlyStop s e (stepAppend s orc e ts).dls then
        (stepAppend s orc e ts, 1)
      else
        ((mainLoop s orc fuel (e + 1) (stepAppend s orc e ts)).1,
          (mainLoop s orc fuel (e + 1) (stepAppend s orc e ts)).2 + 1)

/-- `UDMResolver.try_fit`: pretrain phase then main phase, starting from
empty series.  Returns the accumulated series (frozen into the `UDMResult`)
together with the number of main-phase iterations executed. -/
def tryFit (s : UDMSetting) (pre : ℕ → PretrainStep P)
    (main : ℕ → MainStep P) : TrainState P × ℕ :=
  mainLoop s main s.max_epochs 0 (pretrainPhase pre s.pretrain_epochs ⟨[], [], []⟩)

/-! #### Bookkeeping lemmas for the training loop -/

theorem mainLoop_succ (s : UDMSetting) (orc : ℕ → MainStep P)
    (fuel e : ℕ) (ts : TrainState P) :
    mainLoop s orc (fuel + 1) e ts =
      if totalLoss s (orc e) = Option.none then (ts, 0)
      else
        if earlyStop s e (stepAppend s orc e ts).dls then
          (stepAppend s orc e ts, 1)
        else
          ((mainLoop s orc fuel (e + 1) (stepAppend s orc e ts)).1,
            (mainLoop s orc fuel (e + 1) (stepAppend s orc e ts)).2 + 1) := rfl

theorem pretrainPhase_closed (pre : ℕ → PretrainStep P) :
    ∀ p ts, pretrainPhase pre p ts =
      ⟨ts.dls ++ (List.range p).map fun i => (pre i).dist,
        ts.cls ++ (List.range p).map fun _ => (some 0 : Flt),
        ts.history ++ (List.range p).map fun i => (pre i).snap⟩ := by
  intro p
  induction p with
  | zero => intro ts; simp [pretrainPhase]
  | succ n ih =>
    intro ts
    show List.foldl _ ts (List.range (n + 1)) = _
    rw [List.range_succ, List.foldl_append]
    have h := ih ts
    unfold pretrainPhase at h
    rw [h]
    simp [List.range_succ]

theorem range_shift_map (g : ℕ → β) (n : ℕ) :
    (List.range (n + 1)).map g = g 0 :: (List.range n).map fun j => g (j + 1) := by
  rw [List.range_succ_eq_map, List.map_cons, List.map_map]
  rfl

theorem append_shift (l : List β) (g : ℕ → β) (e n : ℕ) :
    l ++ (List.range (n + 1)).map (fun j => g (e + j))
      = (l ++ [g e]) ++ (List.range n).map fun j => g (e + 1 + j) := by
  rw [range_shift_map (fun j => g (e + j)) n]
  rw [List.append_assoc, List.singleton_append]
  congr 1
  congr 1
  apply List.map_congr_left
  intro j _
  exact congrArg g (by omega)

theorem mainLoop_closed (s : UDMSetting) (orc : ℕ → MainStep P) :
    ∀ fuel e ts,
      (mainLoop s orc fuel e ts).1.dls
          = ts.dls ++ (List.range (mainLoop s orc fuel e ts).2).map
              (fun j => (orc (e + j)).dist) ∧
      (mainLoop s orc fuel e ts).1.cls
          = ts.cls ++ (List.range (mainLoop s orc fuel e ts).2).map
              (fun j =>
                fltMul ((10 : ℚ) ^ s.constraint_level) (orc (e + j)).comp) ∧
      (mainLoop s orc fuel e ts).1.history
          = ts.history ++ (List.range (mainLoop s orc fuel e ts).2).map
              fun j => (orc (e + j)).snap := by
  intro fuel
  induction fuel with
  | zero => intro e ts; simp [mainLoop]
  | succ n ih =>
    intro e ts
    rw [mainLoop_succ]
    by_cases h1 : totalLoss s (orc e) = Option.none
    · rw [if_pos h1]
      simp
    · rw [if_neg h1]
      by_cases h2 : earlyStop s e (stepAppend s orc e ts).dls = true
      · rw [if_pos h2]
        simp [stepAppend, List.range_succ]
      · rw [if_neg h2]
        obtain ⟨ihd, ihc, ihh⟩ := ih (e + 1) (stepAppend s orc e ts)
        refine ⟨?_, ?_, ?_⟩
        · show (mainLoop s orc n (e + 1) (stepAppend s orc e ts)).1.dls = _
          rw [ihd]
          show (stepAppend s orc e ts).dls ++ _ = _
          rw [append_shift ts.dls (fun j => (orc j).dist) e
            (mainLoop s orc n (e + 1) (stepAppend s orc e ts)).2]
          rfl
        · show (mainLoop s orc n (e + 1) (stepAppend s orc e ts)).1.cls = _
          rw [ihc]
          show (stepAppend s orc e ts).cls ++ _ = _
          rw [append_shift ts.cls
            (fun j => fltMul ((10 : ℚ) ^ s.constraint_level) (orc j).comp) e
            (mainLoop s orc n (e + 1) (stepAppend s orc e ts)).2]
          rfl
        · show (mainLoop s orc n (e + 1) (stepAppend s orc e ts)).1.history = _
          rw [ihh]
          show (stepAppend s orc e ts).history ++ _ = _
          rw [append_shift ts.history (fun j => (orc j).snap) e
            (mainLoop s orc n (e + 1) (stepAppend s orc e ts)).2]
          rfl

/-- Claim C7 — at return from the joint resolver's `try_fit`, the parameter
history, the distribution-loss series and the component-divergence-loss
series all have the same length, namely `pretrain_epochs` plus the number
of main-phase iterations actually executed; moreover each series is
exactly one entry per executed iteration in iteration order (pretrain
entries first, with component loss recorded as literal `0`, then the
main-phase entries). -/
theorem claim7_history_invariant (s : UDMSetting) (P : Type)
    (pre : ℕ → PretrainStep P) (main : ℕ → MainStep P) :
    (tryFit s pre main).1.dls.length
        = s.pretrain_epochs + (tryFit s pre main).2 ∧
    (tryFit s pre main).1.cls.length
        = s.pretrain_epochs + (tryFit s pre main).2 ∧
    (tryFit s pre main).1.history.length
        = s.pretrain_epochs + (tryFit s pre main).2 ∧
    (tryFit s pre main).1.dls
        = (List.range s.pretrain_epochs).map (fun i => (pre i).dist)
            ++ (List.range (tryFit s pre main).2).map
              (fun j => (main j).dist) ∧
    (tryFit s pre main).1.cls
        = (List.range s.pretrain_epochs).map (fun _ => (some 0 : Flt))
            ++ (List.range (tryFit s pre main).2).map
              (fun j => fltMul ((10 : ℚ) ^ s.constraint_level)
                (main j).comp) ∧
    (tryFit s pre main).1.history
        = (List.range s.pretrain_epochs).map (fun i => (pre i).snap)
            ++ (List.range (tryFit s pre main).2).map
              fun j => (main j).snap := by
  have e1 : (tryFit s pre main).1.dls
      = (pretrainPhase pre s.pretrain_epochs ⟨[], [], []⟩).dls
        ++ (List.range (tryFit s pre main).2).map
            (fun j => (main (0 + j)).dist) :=
    (mainLoop_closed s main s.max_epochs 0 _).1
  have e2 : (tryFit s pre main).1.cls
      = (pretrainPhase pre s.pretrain_epochs ⟨[], [], []⟩).cls
        ++ (List.range (tryFit s pre main).2).map
            (fun j => fltMul ((10 : ℚ) ^ s.constraint_level)
              (main (0 + j)).comp) :=
    (mainLoop_closed s main s.max_epochs 0 _).2.1
  have e3 : (tryFit s pre main).1.history
      = (pretrainPhase pre s.pretrain_epochs ⟨[], [], []⟩).history
        ++ (List.range (tryFit s pre main).2).map
            (fun j => (main (0 + j)).snap) :=
    (mainLoop_closed s main s.max_epochs 0 _).2.2
  rw [pretrainPhase_closed] at e1 e2 e3
  simp only [Nat.zero_add, List.nil_append] at e1 e2 e3
  refine ⟨?_, ?_, ?_, e1, e2, e3⟩
  · rw [e1]
    simp
  · rw [e2]
    simp
  · rw [e3]
    simp

/-- The distribution-loss series as it stands right after main-phase
iteration `e` has appended its entry (pretrain entries first): used to
state when the early-stopping test fires. -/
def dlsUpTo (s : UDMSetting) (pre : ℕ → PretrainStep P)
    (main : ℕ → MainStep P) (e : ℕ) : List Flt :=
  (List.range s.pretrain_epochs).map (fun i => (pre i).dist)
    ++ (List.range (e + 1)).map fun j => (main j).dist

theorem mainLoop_count_nan (s : UDMSetting) (main : ℕ → MainStep P) (j : ℕ)
    (preDls : List Flt)
    (hj : totalLoss s (main j) = Option.none)
    (hprev : ∀ e, e < j → ¬totalLoss s (main e) = Option.none)
    (hstop : ∀ e, e < j →
      earlyStop s e
        (preDls ++ (List.range (e + 1)).map fun i => (main i).dist)
        = false) :
    ∀ fuel e ts, e ≤ j → j < e + fuel →
      ts.dls = preDls ++ (List.range e).map (fun i => (main i).dist) →
      (mainLoop s main fuel e ts).2 = j - e := by
  intro fuel
  induction fuel with
  | zero => intro e ts he hf _; omega
  | succ n ih =>
    intro e ts he hf hts
    rw [mainLoop_succ]
    by_cases h1 : e = j
    · subst h1
      rw [if_pos hj]
      omega
    · have hej : e < j := by omega
      rw [if_neg (hprev e hej)]
      have hdls1 : (stepAppend s main e ts).dls
          = preDls ++ (List.range (e + 1)).map fun i => (main i).dist := by
        show ts.dls ++ [(main e).dist] = _
        rw [hts, List.range_succ, List.map_append, List.append_assoc]
        rfl
      rw [hdls1, if_neg (by simp [hstop e hej])]
      have hrec := ih (e + 1) (stepAppend s main e ts) (by omega) (by omega)
        hdls1
      rw [hrec]
      omega

/-- Claim C8 — if the joint resolver's total loss is NaN at main-phase
iteration `j` (and no earlier iteration was NaN or triggered early
stopping, with `j` below the configured maximum), training terminates at
that iteration without an exception: the executed main-iteration count is
exactly `j` (not `max_epochs`), every series has exactly
`pretrain_epochs + j` entries, and the history holds exactly the snapshots
of the completed iterations — nothing is appended for the NaN iteration,
so the last valid snapshot is kept. -/
theorem claim8_nan_stop (s : UDMSetting) (P : Type)
    (pre : ℕ → PretrainStep P) (main : ℕ → MainStep P) (j : ℕ)
    (hj : totalLoss s (main j) = Option.none)
    (hprev : ∀ e, e < j → ¬totalLoss s (main e) = Option.none)
    (hstop : ∀ e, e < j → earlyStop s e (dlsUpTo s pre main e) = false)
    (hmax : j < s.max_epochs) :
    (tryFit s pre main).2 = j ∧
    (tryFit s pre main).1.history.length = s.pretrain_epochs + j ∧
    (tryFit s pre main).1.dls.length = s.pretrain_epochs + j ∧
    (tryFit s pre main).1.cls.length = s.pretrain_epochs + j ∧
    (tryFit s pre main).1.history
      = (List.range s.pretrain_epochs).map (fun i => (pre i).snap)
          ++ (List.range j).map fun e => (main e).snap := by
  have hts0 : (pretrainPhase pre s.pretrain_epochs
      (⟨[], [], []⟩ : TrainState P)).dls
      = ((List.range s.pretrain_epochs).map fun i => (pre i).dist)
        ++ (List.range 0).map fun i => (main i).dist := by
    rw [pretrainPhase_closed]
    simp
  have hn : (tryFit s pre main).2 = j := by
    have h := mainLoop_count_nan s main j
      ((List.range s.pretrain_epochs).map fun i => (pre i).dist)
      hj hprev hstop s.max_epochs 0
      (pretrainPhase pre s.pretrain_epochs ⟨[], [], []⟩)
      (by omega) (by omega) hts0
    simpa using h
  have e3 : (tryFit s pre main).1.history
      = (pretrainPhase pre s.pretrain_epochs ⟨[], [], []⟩).history
        ++ (List.range (tryFit s pre main).2).map
            (fun j => (main (0 + j)).snap) :=
    (mainLoop_closed s main s.max_epochs 0 _).2.2
  have e1 : (tryFit s pre main).1.dls
      = (pretrainPhase pre s.pretrain_epochs ⟨[], [], []⟩).dls
        ++ (List.range (tryFit s pre main).2).map
            (fun j => (main (0 + j)).dist) :=
    (mainLoop_closed s main s.max_epochs 0 _).1
  have e2 : (tryFit s pre main).1.cls
      = (pretrainPhase pre s.pretrain_epochs ⟨[], [], []⟩).cls
        ++ (List.range (tryFit s pre main).2).map
            (fun j => fltMul ((10 : ℚ) ^ s.constraint_level)
              (main (0 + j)).comp) :=
    (mainLoop_closed s main s.max_epochs 0 _).2.1
  rw [pretrainPhase_closed] at e1 e2 e3
  simp only [Nat.zero_add, List.nil_append] at e1 e2 e3
  rw [hn] at e1 e2 e3
  refine ⟨hn, ?_, ?_, ?_, e3⟩
  · rw [e3]; simp
  · rw [e1]; simp
  · rw [e2]; simp

/-- Witness for C8: pretrain one epoch, NaN first at main iteration 2 of a
configured 10: two main iterations execute, every series has `1 + 2`
entries and the history is the three completed snapshots. -/
theorem claim8_nan_stop_witness :
    (tryFit ⟨1, 0, 10, 2, 0⟩ (fun _ => (⟨some 1, 0⟩ : PretrainStep ℕ))
        (fun e => if e < 2 then ⟨some 1, some 0, e + 1⟩
          else ⟨Option.none, some 0, e + 1⟩)).2 = 2 ∧
    (tryFit ⟨1, 0, 10, 2, 0⟩ (fun _ => (⟨some 1, 0⟩ : PretrainStep ℕ))
        (fun e => if e < 2 then ⟨some 1, some 0, e + 1⟩
          else ⟨Option.none, some 0, e + 1⟩)).1.history.length = 1 + 2 := by
  have h := claim8_nan_stop ⟨1, 0, 10, 2, 0⟩ ℕ
    (fun _ => (⟨some 1, 0⟩ : PretrainStep ℕ))
    (fun e => if e < 2 then ⟨some 1, some 0, e + 1⟩
      else ⟨Option.none, some 0, e + 1⟩) 2
    (by decide)
    (by intro e he; interval_cases e <;> decide)
    (by intro e he; interval_cases e <;> decide)
    (by decide)
  exact ⟨h.1, h.2.1⟩

theorem filterMap_id_replicate (n : ℕ) (c : ℚ) :
    (List.replicate n (some c : Flt)).filterMap id = List.replicate n c := by
  induction n with
  | zero => rfl
  | succ m ih =>
    rw [List.replicate_succ, List.replicate_succ, List.filterMap_cons]
    simp [ih]

theorem fltMean_replicate (n : ℕ) (c : ℚ) (hn : n ≠ 0) :
    fltMean (List.replicate n (some c : Flt)) = some c := by
  have hcond : ¬((List.replicate n (some c : Flt)).length = 0 ∨
      Option.none ∈ List.replicate n (some c : Flt)) := by
    push_neg
    constructor
    · simpa using hn
    · intro hmem
      have := (List.mem_replicate.mp hmem).2
      exact absurd this (by simp)
  unfold fltMean
  rw [if_neg hcond, filterMap_id_replicate]
  have hcast : (n : ℚ) ≠ 0 := Nat.cast_ne_zero.mpr hn
  rw [List.sum_replicate, List.length_replicate, nsmul_eq_mul]
  rw [mul_comm, mul_div_assoc, div_self hcast, mul_one]

theorem fltMean_const (l : List Flt) (c : ℚ) (h : ∀ v ∈ l, v = some c)
    (hne : l.length ≠ 0) : fltMean l = some c := by
  have hrep : l = List.replicate l.length (some c) := by
    rw [List.eq_replicate_iff]
    exact ⟨rfl, h⟩
  rw [hrep]
  exact fltMean_replicate l.length c hne

/-- With a distribution-loss series that is constant across the comparison
windows (length at least 81, so both windows are non-empty) and the
iteration index past the floor, the early-stopping test fires: the delta of
the window means is `0 < 10^(-precision)`. -/
theorem earlyStop_const (s : UDMSetting) (e : ℕ) (dls : List Flt) (c : ℚ)
    (hv : ∀ v ∈ dls, v = some c) (hlen : 81 ≤ dls.length)
    (he : s.min_epochs < e) :
    earlyStop s e dls = true := by
  unfold earlyStop
  rw [Bool.and_eq_true]
  constructor
  · exact decide_eq_true he
  · unfold deltaLoss
    have h1 : fltMean (sliceNegNeg dls 100 80) = some c := by
      apply fltMean_const
      · intro v hv2
        exact hv v (List.mem_of_mem_drop (List.mem_of_mem_take hv2))
      · have hsl : (sliceNegNeg dls 100 80).length
            = min ((dls.length - 80) - (dls.length - 100))
              (dls.length - (dls.length - 100)) := by
          simp [sliceNegNeg, List.length_take, List.length_drop]
        omega
    have h2 : fltMean (lastSlice dls 20) = some c := by
      apply fltMean_const
      · intro v hv2
        exact hv v (List.mem_of_mem_drop hv2)
      · have hsl : (lastSlice dls 20).length
            = dls.length - (dls.length - 20) := by
          simp [lastSlice, List.length_drop]
        omega
    rw [h1, h2]
    show decide (c - c < (10 : ℚ) ^ (-s.precision)) = true
    apply decide_eq_true
    have hcc : c - c = 0 := by ring
    rw [hcc]
    exact zpow_pos (by norm_num) _

theorem mainLoop_count_const (s : UDMSetting) (main : ℕ → MainStep P)
    (c : ℚ) (hm : ∀ e, (main e).dist = some c) (p : ℕ) :
    ∀ fuel e ts, (∀ v ∈ ts.dls, v = some c) → ts.dls.length = p + e →
      e ≤ max (s.min_epochs + 1) (80 - p) →
      (mainLoop s main fuel e ts).2
        ≤ max (s.min_epochs + 1) (80 - p) + 1 - e := by
  intro fuel
  induction fuel with
  | zero =>
    intro e ts _ _ _
    show 0 ≤ _
    omega
  | succ n ih =>
    intro e ts hv hlen he
    rw [mainLoop_succ]
    by_cases h1 : totalLoss s (main e) = Option.none
    · rw [if_pos h1]
      show 0 ≤ _
      omega
    · rw [if_neg h1]
      have hv1 : ∀ v ∈ (stepAppend s main e ts).dls, v = some c := by
        intro v hv2
        rcases List.mem_append.mp hv2 with h | h
        · exact hv v h
        · rw [List.mem_singleton] at h
          rw [h, hm e]
      have hlen1 : (stepAppend s main e ts).dls.length = p + e + 1 := by
        simp [stepAppend, hlen]
      by_cases h2 : earlyStop s e (stepAppend s main e ts).dls = true
      · rw [if_pos h2]
        show 1 ≤ _
        omega
      · rw [if_neg h2]
        have hene : e ≠ max (s.min_epochs + 1) (80 - p) := by
          intro heq
          apply h2
          apply earlyStop_const s e _ c hv1 (by omega) (by omega)
        have hrec := ih (e + 1) (stepAppend s main e ts) hv1 (by omega)
          (by omega)
        show (mainLoop s main n (e + 1) (stepAppend s main e ts)).2 + 1 ≤ _
        omega

/-- Claim C9 — early stopping is checked only past the minimum-iteration
floor and compares the `[-100:-80)` window mean of the distribution-loss
series against the `[-20:]` window mean, stopping when the improvement
drops below `10^(-precision)` (the embedding `earlyStop`/`deltaLoss`);
consequently, if the recorded reconstruction loss is a constant `c` at
every pretrain and main iteration, the main phase executes at most
`min_epochs + 100` iterations regardless of `max_epochs`. -/
theorem claim9_early_stop (s : UDMSetting) (P : Type)
    (pre : ℕ → PretrainStep P) (main : ℕ → MainStep P) (c : ℚ)
    (hp : ∀ i, (pre i).dist = some c) (hm : ∀ e, (main e).dist = some c) :
    (tryFit s pre main).2 ≤ s.min_epochs + 100 := by
  have hv0 : ∀ v ∈ (pretrainPhase pre s.pretrain_epochs
      (⟨[], [], []⟩ : TrainState P)).dls, v = some c := by
    rw [pretrainPhase_closed]
    intro v hv
    simp only [List.nil_append, List.mem_map, List.mem_range] at hv
    obtain ⟨i, _, hi⟩ := hv
    rw [← hi, hp i]
  have hl0 : (pretrainPhase pre s.pretrain_epochs
      (⟨[], [], []⟩ : TrainState P)).dls.length = s.pretrain_epochs + 0 := by
    rw [pretrainPhase_closed]
    simp
  have h : (tryFit s pre main).2
      ≤ max (s.min_epochs + 1) (80 - s.pretrain_epochs) + 1 - 0 :=
    mainLoop_count_const s main c hm s.pretrain_epochs s.max_epochs 0
      (pretrainPhase pre s.pretrain_epochs ⟨[], [], []⟩) hv0 hl0 (by omega)
  omega

/-- Witness for C9: constant loss `1`, `pretrain_epochs = 2`,
`min_epochs = 3`, `max_epochs = 500` — at most `3 + 100` main iterations
run. -/
theorem claim9_early_stop_witness :
    (tryFit (⟨2, 3, 500, 2, 0⟩ : UDMSetting)
        (fun _ => (⟨some 1, 0⟩ : PretrainStep ℕ))
        (fun _ => (⟨some 1, some 0, 0⟩ : MainStep ℕ))).2 ≤ 3 + 100 :=
  claim9_early_stop ⟨2, 3, 500, 2, 0⟩ ℕ _ _ 1 (fun _ => rfl) (fun _ => rfl)

end QGrain

